import Mathlib

/-!
Shallow embedding of the chrono distributed slope-plane demo driver
(test_DISTR_slopeplane.cpp), the FEA node header (ChNodeFEAxyz.h), and —
where the distributed core itself (domain decomposition, body registry,
exchange protocol) is not part of the sources — a model built from the
specification text.  Real numbers of the C++ code are modelled as rationals.
-/

set_option autoImplicit false

namespace Chrono

/-! ### Domain decomposition (slab split along one axis)

Modelled from the spec: the distributed domain object
(`ChDomainDistributed` behind `GetDomain()` in the driver) is not among the
sources; only its callers are.  The spec describes it as slicing the global
interval on the split axis into `numRanks` equal contiguous slabs, with
half-open membership intervals except on the last rank. -/

/-- Global domain configuration on the split axis: low and high coordinate
and the number of ranks. -/
structure DomainCfg where
  lo : ℚ
  hi : ℚ
  numRanks : ℕ

/-- A configuration is valid when the box is non-degenerate and there is at
least one rank. -/
def DomainCfg.valid (c : DomainCfg) : Prop := c.lo < c.hi ∧ 0 < c.numRanks

instance (c : DomainCfg) : Decidable c.valid := by
  unfold DomainCfg.valid; infer_instance

/-- Width of one slab on the split axis: `(hi - lo) / numRanks`. -/
def slabWidth (c : DomainCfg) : ℚ := (c.hi - c.lo) / c.numRanks

/-- Low boundary of rank `r`'s slab: `lo + r * width`. -/
def slabLow (c : DomainCfg) (r : ℕ) : ℚ := c.lo + r * slabWidth c

/-- High boundary of rank `r`'s slab: `lo + (r+1) * width`. -/
def slabHigh (c : DomainCfg) (r : ℕ) : ℚ := c.lo + (r + 1) * slabWidth c

/-- Modelled from the spec: `Contains(rank, position)` — membership of a
split-axis coordinate in rank `r`'s slab, half-open `[low, high)` except for
the last rank, whose slab is closed at the global high boundary. -/
def contains (c : DomainCfg) (r : ℕ) (x : ℚ) : Bool :=
  if r + 1 = c.numRanks then decide (slabLow c r ≤ x) && decide (x ≤ c.hi)
  else decide (slabLow c r ≤ x) && decide (x < slabHigh c r)

/-- The rank whose slab contains a given coordinate (for coordinates inside
the global box): floor of the scaled offset, clamped to the last rank. -/
def ownerRank (c : DomainCfg) (x : ℚ) : ℕ :=
  min (c.numRanks - 1) (⌊(x - c.lo) / slabWidth c⌋).toNat

theorem slabWidth_pos {c : DomainCfg} (h : c.valid) : 0 < slabWidth c := by
  have h1 : (0 : ℚ) < c.hi - c.lo := by linarith [h.1]
  have h2 : (0 : ℚ) < (c.numRanks : ℚ) := by exact_mod_cast h.2
  exact div_pos h1 h2

theorem slabHigh_eq_slabLow_succ (c : DomainCfg) (r : ℕ) :
    slabHigh c r = slabLow c (r + 1) := by
  unfold slabHigh slabLow
  push_cast
  ring

theorem slabLow_mono {c : DomainCfg} (h : c.valid) {r s : ℕ} (hrs : r ≤ s) :
    slabLow c r ≤ slabLow c s := by
  unfold slabLow
  have hw := slabWidth_pos h
  have : (r : ℚ) ≤ (s : ℚ) := by exact_mod_cast hrs
  nlinarith

/-- In a valid configuration, two distinct ranks below `numRanks` cannot both
contain the same coordinate. -/
theorem contains_unique {c : DomainCfg} (h : c.valid) {r s : ℕ} {x : ℚ}
    (hr : r < c.numRanks) (hs : s < c.numRanks)
    (hcr : contains c r x = true) (hcs : contains c s x = true) : r = s := by
  have hw := slabWidth_pos h
  -- a helper fact: if r < s (both valid) then containment on both is absurd
  have key : ∀ r s : ℕ, r < s → s < c.numRanks →
      contains c r x = true → contains c s x = true → False := by
    intro r s hlt hsn hcr hcs
    -- since r < s < numRanks, r's slab is half-open: r + 1 ≠ numRanks
    have hrne : r + 1 ≠ c.numRanks := by omega
    have hxlt : x < slabHigh c r := by
      unfold contains at hcr
      rw [if_neg hrne] at hcr
      simp only [Bool.and_eq_true, decide_eq_true_eq] at hcr
      exact hcr.2
    have hxge : slabLow c s ≤ x := by
      unfold contains at hcs
      by_cases hse : s + 1 = c.numRanks
      · rw [if_pos hse] at hcs
        simp only [Bool.and_eq_true, decide_eq_true_eq] at hcs
        exact hcs.1
      · rw [if_neg hse] at hcs
        simp only [Bool.and_eq_true, decide_eq_true_eq] at hcs
        exact hcs.1
    have hmono : slabLow c (r + 1) ≤ slabLow c s := slabLow_mono h (by omega)
    rw [slabHigh_eq_slabLow_succ] at hxlt
    linarith
  rcases lt_trichotomy r s with hlt | heq | hgt
  · exact absurd (key r s hlt hs hcr hcs) (by simp)
  · exact heq
  · exact absurd (key s r hgt hr hcs hcr) (by simp)

/-- In a valid configuration, `ownerRank` is a valid rank. -/
theorem ownerRank_lt {c : DomainCfg} (h : c.valid) (x : ℚ) :
    ownerRank c x < c.numRanks := by
  unfold ownerRank
  have := h.2
  exact lt_of_le_of_lt (min_le_left _ _) (by omega)

/-- Existence: every coordinate of the global box is contained in the slab of
its `ownerRank`. -/
theorem contains_ownerRank {c : DomainCfg} (h : c.valid) {x : ℚ}
    (hlo : c.lo ≤ x) (hhi : x ≤ c.hi) : contains c (ownerRank c x) x = true := by
  have hw := slabWidth_pos h
  set w := slabWidth c with hwdef
  set k : ℤ := ⌊(x - c.lo) / w⌋ with hkdef
  have hk0 : 0 ≤ k := by
    apply Int.floor_nonneg.mpr
    apply div_nonneg (by linarith) (le_of_lt hw)
  have hkfl : (k : ℚ) ≤ (x - c.lo) / w := Int.floor_le _
  have hkfu : (x - c.lo) / w < (k : ℚ) + 1 := Int.lt_floor_add_one _
  by_cases hcase : c.numRanks - 1 ≤ k.toNat
  · -- clamped to the last rank
    have hor : ownerRank c x = c.numRanks - 1 := by
      rw [ownerRank, ← hwdef, ← hkdef]
      omega
    rw [hor]
    unfold contains
    have hn := h.2
    have hlast : c.numRanks - 1 + 1 = c.numRanks := by omega
    rw [if_pos hlast]
    have hlow : slabLow c (c.numRanks - 1) ≤ x := by
      -- (numRanks - 1 : ℚ) ≤ k ≤ (x - lo)/w
      have h1 : ((c.numRanks - 1 : ℕ) : ℚ) ≤ (k : ℚ) := by
        have : ((c.numRanks - 1 : ℕ) : ℤ) ≤ k := by omega
        exact_mod_cast this
      have h2 : ((c.numRanks - 1 : ℕ) : ℚ) ≤ (x - c.lo) / w := le_trans h1 hkfl
      have h3 : ((c.numRanks - 1 : ℕ) : ℚ) * w ≤ x - c.lo := by
        rw [← le_div_iff hw]
        exact h2
      unfold slabLow
      linarith
    simp [hlow, hhi]
  · -- interior rank k.toNat
    have hor : ownerRank c x = k.toNat := by
      rw [ownerRank, ← hwdef, ← hkdef]
      omega
    rw [hor]
    unfold contains
    have hne : k.toNat + 1 ≠ c.numRanks := by omega
    rw [if_neg hne]
    have hkq : ((k.toNat : ℕ) : ℚ) = (k : ℚ) := by
      exact_mod_cast Int.toNat_of_nonneg hk0
    have hlow : slabLow c k.toNat ≤ x := by
      have h3 : (k : ℚ) * w ≤ x - c.lo := by
        rw [← le_div_iff hw]
        exact hkfl
      unfold slabLow
      rw [hkq]
      linarith
    have hhigh : x < slabHigh c k.toNat := by
      have h3 : x - c.lo < ((k : ℚ) + 1) * w := by
        rw [← div_lt_iff hw]
        exact hkfu
      unfold slabHigh
      rw [hkq]
      linarith
    simp [hlow, hhigh]

/-- C3 helper: every coordinate of the global box is contained in exactly one
rank's slab. -/
theorem contains_existsUnique {c : DomainCfg} (h : c.valid) {x : ℚ}
    (hlo : c.lo ≤ x) (hhi : x ≤ c.hi) :
    ∃! r : ℕ, r < c.numRanks ∧ contains c r x = true := by
  refine ⟨ownerRank c x, ⟨ownerRank_lt h x, contains_ownerRank h hlo hhi⟩, ?_⟩
  intro s hs
  exact contains_unique h hs.1 (ownerRank_lt h x) hs.2 (contains_ownerRank h hlo hhi)

/-- C3: for every position inside the global box, `Contains(rank, position)`
is true for exactly one rank; slabs are half-open `[low, high)` on the split
axis except the last rank's slab, which is closed at the global high
boundary. -/
theorem C3_contains_partitions_box {c : DomainCfg} (h : c.valid) {x : ℚ}
    (hlo : c.lo ≤ x) (hhi : x ≤ c.hi) :
    ∃! r : ℕ, r < c.numRanks ∧ contains c r x = true :=
  contains_existsUnique h hlo hhi

/-- Witness for C3: the spec scenario, global interval `[0, 10]` split over
two ranks, position `4.9`, has exactly one containing rank. -/
theorem C3_witness :
    (DomainCfg.mk 0 10 2).valid ∧ (0 : ℚ) ≤ 49/10 ∧ (49/10 : ℚ) ≤ 10 ∧
    (∃! r : ℕ, r < (DomainCfg.mk 0 10 2).numRanks ∧
      contains (DomainCfg.mk 0 10 2) r (49/10) = true) :=
  ⟨by decide, by norm_num, by norm_num,
    C3_contains_partitions_box (by decide) (by norm_num) (by norm_num)⟩

/-! ### Exchange round: ownership partition and ghost refresh

Modelled from the spec: the exchange protocol (`ChCommDistributed` behind
`DoStepDynamics` in the driver) is not among the sources.  The spec says the
round migrates every body to the rank whose sub-domain contains its position
(§4.4 steps 2 and 5) and replaces each rank's ghost set from a neighbor with
the freshly assembled packet of that neighbor's near-boundary bodies
(§4.4 steps 3 and 5). -/

/-- A body as the exchange protocol sees it: globally unique id and the
coordinate of its position along the split axis. -/
structure SBody where
  gid : ℕ
  pos : ℚ
deriving DecidableEq

/-- All live bodies: the concatenation of every rank's pre-round OWNED
table. -/
def liveBodies (c : DomainCfg) (pre : ℕ → List SBody) : List SBody :=
  (List.range c.numRanks).flatMap pre

/-- Modelled from the spec: the per-rank OWNED table after the exchange
round — each rank keeps exactly the live bodies whose position its
sub-domain contains (locals that stayed, plus migrants received). -/
def exchangeOwners (c : DomainCfg) (pre : ℕ → List SBody) : ℕ → List SBody :=
  fun r => (liveBodies c pre).filter (fun b => contains c r b.pos)

/-- C1: after the exchange round, the OWNED tables keyed by `GlobalId` form a
partition of the live body set: every live `GlobalId` is OWNED on exactly one
rank, and no rank's OWNED table holds a body that was not live. -/
theorem C1_owned_partition (c : DomainCfg) (pre : ℕ → List SBody) (h : c.valid)
    (hbox : ∀ b ∈ liveBodies c pre, c.lo ≤ b.pos ∧ b.pos ≤ c.hi)
    (hnodup : ((liveBodies c pre).map SBody.gid).Nodup) :
    (∀ g : ℕ, (∃ b ∈ liveBodies c pre, b.gid = g) →
      ∃! r : ℕ, r < c.numRanks ∧ ∃ b ∈ exchangeOwners c pre r, b.gid = g)
    ∧ (∀ r : ℕ, ∀ b ∈ exchangeOwners c pre r, b ∈ liveBodies c pre) := by
  constructor
  · rintro g ⟨b, hbmem, hbg⟩
    obtain ⟨hblo, hbhi⟩ := hbox b hbmem
    refine ⟨ownerRank c b.pos, ⟨ownerRank_lt h b.pos, b, ?_, hbg⟩, ?_⟩
    · exact List.mem_filter.mpr ⟨hbmem, contains_ownerRank h hblo hbhi⟩
    · rintro s ⟨hs, b', hb'mem, hb'g⟩
      obtain ⟨hb'live, hb'cont⟩ := List.mem_filter.mp hb'mem
      have hbb : b' = b :=
        List.inj_on_of_nodup_map hnodup hb'live hbmem (by rw [hb'g, hbg])
      rw [hbb] at hb'cont
      exact contains_unique h hs (ownerRank_lt h b.pos) hb'cont
        (contains_ownerRank h hblo hbhi)
  · intro r b hb
    exact (List.mem_filter.mp hb).1

/-- Witness for C1: box `[0,10]`, two ranks, a body with id 7 at `4` held by
rank 0 and a body with id 8 at `6` still held by rank 0 (it has crossed into
rank 1's slab and must migrate). -/
theorem C1_witness :
    (DomainCfg.mk 0 10 2).valid ∧
    (∀ b ∈ liveBodies (DomainCfg.mk 0 10 2)
        (fun r => if r = 0 then [SBody.mk 7 4, SBody.mk 8 6] else []),
      (DomainCfg.mk 0 10 2).lo ≤ b.pos ∧ b.pos ≤ (DomainCfg.mk 0 10 2).hi) ∧
    (((liveBodies (DomainCfg.mk 0 10 2)
        (fun r => if r = 0 then [SBody.mk 7 4, SBody.mk 8 6] else [])).map
          SBody.gid).Nodup) ∧
    ((∀ g : ℕ, (∃ b ∈ liveBodies (DomainCfg.mk 0 10 2)
          (fun r => if r = 0 then [SBody.mk 7 4, SBody.mk 8 6] else []),
        b.gid = g) →
      ∃! r : ℕ, r < (DomainCfg.mk 0 10 2).numRanks ∧
        ∃ b ∈ exchangeOwners (DomainCfg.mk 0 10 2)
          (fun r => if r = 0 then [SBody.mk 7 4, SBody.mk 8 6] else []) r,
          b.gid = g)
    ∧ (∀ r : ℕ, ∀ b ∈ exchangeOwners (DomainCfg.mk 0 10 2)
          (fun r => if r = 0 then [SBody.mk 7 4, SBody.mk 8 6] else []) r,
        b ∈ liveBodies (DomainCfg.mk 0 10 2)
          (fun r => if r = 0 then [SBody.mk 7 4, SBody.mk 8 6] else []))) :=
  ⟨by decide, by decide, by decide,
    C1_owned_partition _ _ (by decide) (by decide) (by decide)⟩

/-- Per-rank state carried across exchange rounds: each rank's OWNED table
and, for each pair (holder rank, source neighbor), the ghost set the holder
received from that neighbor. -/
structure GhostState where
  owners : ℕ → List SBody
  ghosts : ℕ → ℕ → List SBody

/-- Modelled from the spec: the ghost packet a (post-migration) owner rank
`q` assembles for rank `r`: its own bodies within the halo margin of the
boundary it shares with `r`; empty unless `r` is an adjacent slab. -/
def ghostPacket (c : DomainCfg) (halo : ℚ) (ownersq : List SBody) (q r : ℕ) :
    List SBody :=
  if q + 1 = r then ownersq.filter (fun b => decide (slabHigh c q - halo ≤ b.pos))
  else if r + 1 = q then ownersq.filter (fun b => decide (b.pos ≤ slabLow c q + halo))
  else []

/-- Modelled from the spec: one exchange round — migrate every body to the
rank whose sub-domain contains it, then replace each rank's entire ghost set
from each neighbor with the freshly assembled packet. -/
def exchangeRound (c : DomainCfg) (halo : ℚ) (st : GhostState) : GhostState :=
  let newOwners := exchangeOwners c st.owners
  { owners := newOwners
    ghosts := fun r q =>
      if q < c.numRanks then ghostPacket c halo (newOwners q) q r else [] }

theorem flatMap_range_eq_single {α : Type} (n q : ℕ) (hq : q < n) (g : ℕ → List α)
    (hg : ∀ p, p < n → p ≠ q → g p = []) : (List.range n).flatMap g = g q := by
  induction n with
  | zero => omega
  | succ m ih =>
    rw [List.range_succ, List.flatMap_append, List.flatMap_cons, List.flatMap_nil,
      List.append_nil]
    by_cases hqm : q = m
    · have hrest : (List.range m).flatMap g = [] := by
        apply List.flatMap_eq_nil_iff.mpr
        intro p hp
        have hpm := List.mem_range.mp hp
        exact hg p (by omega) (by omega)
      rw [hrest, hqm, List.nil_append]
    · have hm : g m = [] := hg m (by omega) (fun hc => hqm hc.symm)
      rw [hm, List.append_nil]
      exact ih (by omega) (fun p hp hpq => hg p (by omega) hpq)

/-- With positions unchanged, re-running the ownership reassignment does not
change any valid rank's OWNED table. -/
theorem exchangeOwners_idem {c : DomainCfg} (h : c.valid) (pre : ℕ → List SBody)
    {q : ℕ} (hq : q < c.numRanks) :
    exchangeOwners c (exchangeOwners c pre) q = exchangeOwners c pre q := by
  show (liveBodies c (exchangeOwners c pre)).filter (fun b => contains c q b.pos)
      = (liveBodies c pre).filter (fun b => contains c q b.pos)
  have hlive : liveBodies c (exchangeOwners c pre)
      = (List.range c.numRanks).flatMap
          (fun p => (liveBodies c pre).filter (fun b => contains c p b.pos)) := rfl
  rw [hlive, List.filter_flatMap]
  have hsingle := flatMap_range_eq_single c.numRanks q hq
    (fun p => ((liveBodies c pre).filter (fun b => contains c p b.pos)).filter
      (fun b => contains c q b.pos))
    (fun p hp hpq => by
      simp only [List.filter_filter]
      apply List.filter_eq_nil_iff.mpr
      intro b hb
      rw [Bool.and_eq_true]
      rintro ⟨hcq, hcp⟩
      exact hpq (contains_unique h hp hq hcp hcq))
  rw [hsingle]
  simp only [List.filter_filter, Bool.and_self]

/-- C5: running the exchange round twice in a row with no intervening
integration produces an identical ghost set — each rank's ghost set from each
neighbor is replaced wholesale with the freshly assembled packet, so
repeating the round accumulates and duplicates nothing. -/
theorem C5_ghost_refresh_idempotent (c : DomainCfg) (halo : ℚ) (st : GhostState)
    (h : c.valid) :
    (exchangeRound c halo (exchangeRound c halo st)).ghosts
      = (exchangeRound c halo st).ghosts := by
  funext r q
  show (if q < c.numRanks then
      ghostPacket c halo (exchangeOwners c (exchangeRound c halo st).owners q) q r
    else [])
    = (if q < c.numRanks then
      ghostPacket c halo (exchangeOwners c st.owners q) q r else [])
  by_cases hq : q < c.numRanks
  · rw [if_pos hq, if_pos hq]
    have howners : (exchangeRound c halo st).owners = exchangeOwners c st.owners := rfl
    rw [howners, exchangeOwners_idem h st.owners hq]
  · rw [if_neg hq, if_neg hq]

/-- Witness for C5: box `[0,10]`, two ranks, halo margin 1, rank 0 holding
two bodies; the second round's ghost tables equal the first round's. -/
theorem C5_witness :
    (DomainCfg.mk 0 10 2).valid ∧
    (exchangeRound (DomainCfg.mk 0 10 2) 1
        (exchangeRound (DomainCfg.mk 0 10 2) 1
          (GhostState.mk
            (fun r => if r = 0 then [SBody.mk 7 4, SBody.mk 8 6] else [])
            (fun _ _ => [])))).ghosts
      = (exchangeRound (DomainCfg.mk 0 10 2) 1
          (GhostState.mk
            (fun r => if r = 0 then [SBody.mk 7 4, SBody.mk 8 6] else [])
            (fun _ _ => []))).ghosts :=
  ⟨by decide, C5_ghost_refresh_idempotent _ _ _ (by decide)⟩

/-! ### Applying incoming exchange records

Modelled from the spec: an exchange packet is an ordered sequence of
fixed-layout records `{GlobalId, kind, position, velocity, shape,
material-ref}` (§6); application on the receiver is idempotent and keyed by
`GlobalId` (§4.4 step 4), each record overwriting the registry entry for its
id. -/

/-- Kind tag of a wire record. -/
inductive RecKind where
  | migrate
  | ghost
deriving DecidableEq

/-- A fixed-layout wire record. -/
structure XRecord where
  gid : ℕ
  kind : RecKind
  pos : ℚ
  vel : ℚ
  shape : ℚ
  materialRef : ℕ
deriving DecidableEq

/-- A rank's registry, keyed by `GlobalId`. -/
def Registry : Type := ℕ → Option XRecord

/-- Applying one incoming record: overwrite the entry keyed by the record's
`GlobalId`, leaving every other key unchanged. -/
def applyRecord (reg : Registry) (rec : XRecord) : Registry :=
  fun g => if g = rec.gid then some rec else reg g

/-- Applying a batch of incoming records in the order received. -/
def applyRecords (reg : Registry) (recs : List XRecord) : Registry :=
  recs.foldl applyRecord reg

/-- A batch drawn from a set of records: within it, the `GlobalId` determines
the record (duplicates are byte-identical re-sends). -/
def keyedById (recs : List XRecord) : Prop :=
  ∀ a ∈ recs, ∀ b ∈ recs, a.gid = b.gid → a = b

instance (recs : List XRecord) : Decidable (keyedById recs) := by
  unfold keyedById; infer_instance

theorem applyRecord_comm (reg : Registry) {a b : XRecord}
    (hab : a.gid = b.gid → a = b) :
    applyRecord (applyRecord reg a) b = applyRecord (applyRecord reg b) a := by
  funext g
  show (if g = b.gid then some b else if g = a.gid then some a else reg g)
      = (if g = a.gid then some a else if g = b.gid then some b else reg g)
  by_cases hga : g = a.gid
  · by_cases hgb : g = b.gid
    · have he : a = b := hab (hga.symm.trans hgb)
      subst he
      rfl
    · simp only [if_pos hga, if_neg hgb]
  · by_cases hgb : g = b.gid
    · simp only [if_neg hga, if_pos hgb]
    · simp only [if_neg hga, if_neg hgb]

/-- C4: applying a fixed set of incoming migration and ghost records in any
order (any permutation) yields the same registry state. -/
theorem C4_apply_order_insensitive (reg : Registry) {l1 l2 : List XRecord}
    (hperm : l1.Perm l2) (hkey : keyedById l1) :
    applyRecords reg l1 = applyRecords reg l2 := by
  induction hperm generalizing reg with
  | nil => rfl
  | cons a h ih =>
    show applyRecords (applyRecord reg a) _ = applyRecords (applyRecord reg a) _
    exact ih (applyRecord reg a)
      (fun x hx y hy => hkey x (List.mem_cons_of_mem a hx) y (List.mem_cons_of_mem a hy))
  | swap a b l =>
    show applyRecords (applyRecord (applyRecord reg b) a) l
        = applyRecords (applyRecord (applyRecord reg a) b) l
    rw [applyRecord_comm reg
      (fun hg => hkey a (by simp) b (by simp) hg)]
  | trans h12 h23 ih12 ih23 =>
    rename_i la lb lc
    have hkeyb : keyedById lb := fun x hx y hy =>
      hkey x (h12.mem_iff.mpr hx) y (h12.mem_iff.mpr hy)
    exact (ih12 reg hkey).trans (ih23 reg hkeyb)

/-- Witness for C4: two records with distinct ids applied in both orders give
the same registry. -/
theorem C4_witness :
    (List.Perm [XRecord.mk 1 RecKind.migrate 2 0 1 0, XRecord.mk 2 RecKind.ghost 3 0 1 0]
      [XRecord.mk 2 RecKind.ghost 3 0 1 0, XRecord.mk 1 RecKind.migrate 2 0 1 0]) ∧
    keyedById [XRecord.mk 1 RecKind.migrate 2 0 1 0, XRecord.mk 2 RecKind.ghost 3 0 1 0] ∧
    applyRecords (fun _ => none)
        [XRecord.mk 1 RecKind.migrate 2 0 1 0, XRecord.mk 2 RecKind.ghost 3 0 1 0]
      = applyRecords (fun _ => none)
        [XRecord.mk 2 RecKind.ghost 3 0 1 0, XRecord.mk 1 RecKind.migrate 2 0 1 0] :=
  ⟨List.Perm.swap _ _ _, by decide,
    C4_apply_order_insensitive (fun _ => none) (List.Perm.swap _ _ _) (by decide)⟩

/-! ### Broad-phase bin counts (driver `main`, lines 301–318)

The driver computes `subsize = (subhi - sublo) / (2 * gran_radius)` per axis,
then `bin = (int)std::ceil(subsize) / factor` (C++ `int` division truncates
toward zero) and replaces a zero result by 1. -/

/-- The driver's particle radius `gran_radius = 0.025`. -/
def granRadius : ℚ := 1 / 40

/-- The driver's broad-phase coarsening factor `factor = 2`. -/
def binFactor : ℤ := 2

/-- Bin count along one axis as the driver computes it from the sub-domain
extent on that axis. -/
def binCountAxis (subExtent radius : ℚ) (factor : ℤ) : ℤ :=
  let subsize : ℚ := subExtent / (2 * radius)
  let b : ℤ := Int.tdiv ⌈subsize⌉ factor
  if b = 0 then 1 else b

/-- C2: for each axis, the driver's bin count equals
`max(1, ceil(subExtent / (2 * interactionRadius)) / binningFactor)` with
`interactionRadius = gran_radius`, `binningFactor = 2`, truncating integer
division, and the clamp to 1 exactly when that division yields 0. -/
theorem C2_bin_count_formula (subExtent : ℚ) (hext : 0 ≤ subExtent) :
    binCountAxis subExtent granRadius binFactor
      = max 1 (Int.tdiv ⌈subExtent / (2 * granRadius)⌉ binFactor) := by
  unfold binCountAxis
  have hrad : (0 : ℚ) < 2 * granRadius := by norm_num [granRadius]
  have hceil : (0 : ℤ) ≤ ⌈subExtent / (2 * granRadius)⌉ :=
    Int.ceil_nonneg (div_nonneg hext (le_of_lt hrad))
  have hb : (0 : ℤ) ≤ Int.tdiv ⌈subExtent / (2 * granRadius)⌉ binFactor :=
    Int.tdiv_nonneg hceil (by norm_num [binFactor])
  by_cases hz : Int.tdiv ⌈subExtent / (2 * granRadius)⌉ binFactor = 0
  · rw [if_pos hz, hz]
    exact (max_eq_left (by norm_num)).symm
  · rw [if_neg hz]
    omega

/-- Witness for C2: a sub-domain extent of 1 gives `ceil(1 / 0.05) = 20`,
`20 / 2 = 10` bins. -/
theorem C2_witness :
    (0 : ℚ) ≤ 1 ∧
    binCountAxis 1 granRadius binFactor
      = max 1 (Int.tdiv ⌈(1 : ℚ) / (2 * granRadius)⌉ binFactor) :=
  ⟨by norm_num, C2_bin_count_formula 1 (by norm_num)⟩

/-! ### Driver body insertion (`AddSlopedWall`, `CreateBall`, `AddFallingBalls`)

The wall container goes through `AddBodyAllRanks`; every ball goes through
`AddBody`.  `CreateBall` takes `int* ballId` by value and sets the identifier
from `*ballId++`: the post-increment applies to the local pointer copy, so
the read uses the original pointer and the caller's counter cell is never
written. -/

/-- Which `ChSystemDistributed` insertion entry point a body goes through. -/
inductive AddPath where
  | allRanks
  | oneRank
deriving DecidableEq

/-- The driver-level body fields the claims are about: identifier, split-axis
position, fixedness and collision flag. -/
structure DBody where
  identifier : ℤ
  pos : ℚ
  fixed : Bool
  collide : Bool
deriving DecidableEq

/-- A C++ memory holding `int` cells, addressed by `ℕ`. -/
def Mem : Type := ℕ → ℤ

/-- `*p++` for a by-value `int*` parameter `p`: dereference the old pointer,
increment the local pointer copy; returns (value read, new local pointer,
memory — unchanged, since nothing is stored through the pointer). -/
def derefPostInc (mem : Mem) (p : ℕ) : ℤ × ℕ × Mem := (mem p, p + 1, mem)

/-- `CreateBall`: a movable, colliding ball at `pos` whose identifier is set
from `*ballId++`. -/
def createBall (pos : ℚ) (mem : Mem) (ballId : ℕ) : DBody × Mem :=
  let r := derefPostInc mem ballId
  (DBody.mk r.1 pos false true, r.2.2)

/-- The loop body of `AddFallingBalls`: create a ball per sample point,
passing `&ballId` each time, and add each ball via the single-rank path. -/
def addBallsLoop (pts : List ℚ) (mem : Mem) (ballId : ℕ) :
    List (DBody × AddPath) × Mem :=
  match pts with
  | [] => ([], mem)
  | p :: rest =>
    let r := createBall p mem ballId
    let restOut := addBallsLoop rest r.2 ballId
    ((r.1, AddPath.oneRank) :: restOut.1, restOut.2)

/-- `AddFallingBalls`: `int ballId = 0` lives in a fresh cell at address 0;
every ball built from the sample points is added with `AddBody`. -/
def addFallingBalls (pts : List ℚ) : List (DBody × AddPath) × Mem :=
  addBallsLoop pts (fun _ => 0) 0

/-- `AddSlopedWall`: the fixed, non-colliding container body, added with
`AddBodyAllRanks`. -/
def addSlopedWall : List (DBody × AddPath) :=
  [(DBody.mk 0 0 true false, AddPath.allRanks)]

/-- The body ownership statuses of the registry. -/
inductive CommStatus where
  | empty
  | owned
  | shared
  | ghost
  | global
deriving DecidableEq

/-- Modelled from the spec: the status a body inserted through a given entry
point gets on rank `r` — the all-ranks path makes it GLOBAL everywhere, the
single-rank path makes it OWNED exactly on the rank whose sub-domain
contains its position and leaves every other rank's slot EMPTY. -/
def insertStatus (c : DomainCfg) (path : AddPath) (pos : ℚ) (r : ℕ) : CommStatus :=
  match path with
  | AddPath.allRanks => CommStatus.global
  | AddPath.oneRank =>
      if contains c r pos then CommStatus.owned else CommStatus.empty

theorem addBallsLoop_mem_unchanged (pts : List ℚ) (mem : Mem) (ballId : ℕ) :
    (addBallsLoop pts mem ballId).2 = mem := by
  induction pts generalizing mem with
  | nil => rfl
  | cons p rest ih => exact ih mem

theorem addBallsLoop_identifiers (pts : List ℚ) (mem : Mem) (ballId : ℕ) :
    ∀ bp ∈ (addBallsLoop pts mem ballId).1,
      bp.1.identifier = mem ballId ∧ bp.2 = AddPath.oneRank ∧
      bp.1.fixed = false ∧ bp.1.collide = true ∧ bp.1.pos ∈ pts := by
  induction pts generalizing mem with
  | nil => intro bp hbp; exact absurd hbp (List.not_mem_nil bp)
  | cons p rest ih =>
    intro bp hbp
    rcases List.mem_cons.mp hbp with heq | htail
    · subst heq
      exact ⟨rfl, rfl, rfl, rfl, List.mem_cons_self p rest⟩
    · obtain ⟨h1, h2, h3, h4, h5⟩ := ih mem bp htail
      exact ⟨h1, h2, h3, h4, List.mem_cons_of_mem p h5⟩

/-- C8: `CreateBall`'s `*ballId++` post-increments the local copy of the
pointer, so the caller's counter keeps its initial value 0 for the whole of
`AddFallingBalls` and every created ball gets identifier 0. -/
theorem C8_all_ball_identifiers_zero (pts : List ℚ) :
    (∀ bp ∈ (addFallingBalls pts).1, bp.1.identifier = 0)
    ∧ (addFallingBalls pts).2 0 = 0 := by
  constructor
  · intro bp hbp
    exact (addBallsLoop_identifiers pts (fun _ => 0) 0 bp hbp).1
  · rw [addFallingBalls, addBallsLoop_mem_unchanged]

/-- C6: the wall goes through the all-ranks path and is GLOBAL on every
rank; every falling ball goes through the single-rank path and (for a
position inside the global box) is OWNED on exactly one rank. -/
theorem C6_wall_global_balls_owned (c : DomainCfg) (h : c.valid) (pts : List ℚ) :
    (∀ bp ∈ addSlopedWall, bp.1.fixed = true ∧ bp.2 = AddPath.allRanks ∧
      ∀ r : ℕ, insertStatus c bp.2 bp.1.pos r = CommStatus.global)
    ∧ (∀ bp ∈ (addFallingBalls pts).1, bp.1.fixed = false ∧ bp.2 = AddPath.oneRank ∧
      (c.lo ≤ bp.1.pos → bp.1.pos ≤ c.hi →
        ∃! r : ℕ, r < c.numRanks ∧
          insertStatus c bp.2 bp.1.pos r = CommStatus.owned)) := by
  constructor
  · intro bp hbp
    rcases List.mem_cons.mp hbp with heq | habs
    · subst heq
      exact ⟨rfl, rfl, fun r => rfl⟩
    · exact absurd habs (List.not_mem_nil bp)
  · intro bp hbp
    obtain ⟨_, hpath, hfix, _, _⟩ :=
      addBallsLoop_identifiers pts (fun _ => 0) 0 bp hbp
    refine ⟨hfix, hpath, fun hlo hhi => ?_⟩
    obtain ⟨r0, ⟨hr0, hc0⟩, huniq⟩ := contains_existsUnique h hlo hhi
    rw [hpath]
    refine ⟨r0, ⟨hr0, ?_⟩, ?_⟩
    · unfold insertStatus
      rw [if_pos hc0]
    · rintro s ⟨hs, hstat⟩
      apply huniq
      refine ⟨hs, ?_⟩
      unfold insertStatus at hstat
      by_cases hcs : contains c s bp.1.pos
      · exact hcs
      · rw [if_neg hcs] at hstat
        exact absurd hstat (by simp)

/-- Witness for C6: box `[0,10]`, two ranks, balls at positions 4 and 6; the
wall part holds and the first ball is OWNED on exactly one of the two
ranks. -/
theorem C6_witness :
    (DomainCfg.mk 0 10 2).valid ∧
    ((DBody.mk 0 4 false true, AddPath.oneRank) ∈
      (addFallingBalls [4, 6]).1) ∧
    (∃! r : ℕ, r < 2 ∧
      insertStatus (DomainCfg.mk 0 10 2) AddPath.oneRank 4 r = CommStatus.owned) :=
  ⟨by decide, by decide,
    (((C6_wall_global_balls_owned (DomainCfg.mk 0 10 2) (by decide) [4, 6]).2
      (DBody.mk 0 4 false true, AddPath.oneRank) (by decide)).2.2
      (by decide) (by decide))⟩

/-- Witness for C8: with two sample points, the second created ball is in the
output, its identifier is 0, and the counter cell still holds 0. -/
theorem C8_witness :
    ((DBody.mk 0 6 false true, AddPath.oneRank) ∈ (addFallingBalls [4, 6]).1 ∧
      (DBody.mk 0 6 false true, AddPath.oneRank).1.identifier = 0)
    ∧ (addFallingBalls [4, 6]).2 0 = 0 :=
  ⟨⟨by decide,
    (C8_all_ball_identifiers_zero [4, 6]).1 (DBody.mk 0 6 false true, AddPath.oneRank)
      (by decide)⟩,
   (C8_all_ball_identifiers_zero [4, 6]).2⟩

/-! ### Per-rank monitoring output (`Monitor`, driver main loop lines 385–387)

`Monitor` reads eleven quantities off the system and prints one line per
call; the main loop calls it once per simulation step on each rank when the
`-m` flag was given. -/

/-- The quantities `Monitor` reads from the system on one call. -/
structure SysSample where
  chTime : ℚ
  timerStep : ℚ
  timerBroad : ℚ
  timerNarrow : ℚ
  timerSolver : ℚ
  timerUpdate : ℚ
  timerExchange : ℚ
  nbodies : ℤ
  ncontacts : ℤ
  residual : ℚ
  iterations : ℤ
deriving DecidableEq

/-- One printed `Monitor` line: the printf fields in their order — rank,
time, step timer, exchange, broad-phase, narrow-phase, solver, update, body
count, contact count, iterations, residual. -/
structure MonitorLine where
  rank : ℕ
  time : ℚ
  step : ℚ
  exch : ℚ
  broad : ℚ
  narrow : ℚ
  solver : ℚ
  update : ℚ
  bodies : ℤ
  contacts : ℤ
  iters : ℤ
  resid : ℚ
deriving DecidableEq

/-- `Monitor(system, rank)`: assemble the line from the system getters. -/
def monitorLine (s : SysSample) (rank : ℕ) : MonitorLine :=
  MonitorLine.mk rank s.chTime s.timerStep s.timerExchange s.timerBroad
    s.timerNarrow s.timerSolver s.timerUpdate s.nbodies s.ncontacts
    s.iterations s.residual

/-- The monitor lines one rank's main loop prints: for each step
`i < num_steps`, a `Monitor` call when the `-m` flag is set, nothing
otherwise. -/
def driverMonitorLines (monitorFlag : Bool) (numSteps : ℕ)
    (sysAt : ℕ → SysSample) (rank : ℕ) : List MonitorLine :=
  (List.range numSteps).flatMap
    (fun i => if monitorFlag then [monitorLine (sysAt i) rank] else [])

/-- C7: with monitoring enabled, every simulation step makes each rank print
exactly one monitor line, and the `i`-th line carries that step's simulation
time, step timer, exchange time, broad-phase time, narrow-phase time, solver
time, update time, body count, contact count, iteration count and
residual. -/
theorem C7_monitor_line_per_step (m : Bool) (numSteps : ℕ)
    (sysAt : ℕ → SysSample) (rank : ℕ) (hm : m = true) :
    driverMonitorLines m numSteps sysAt rank
      = (List.range numSteps).map (fun i => monitorLine (sysAt i) rank)
    ∧ ∀ i : ℕ, i < numSteps →
      (driverMonitorLines m numSteps sysAt rank)[i]?
        = some (MonitorLine.mk rank (sysAt i).chTime (sysAt i).timerStep
            (sysAt i).timerExchange (sysAt i).timerBroad (sysAt i).timerNarrow
            (sysAt i).timerSolver (sysAt i).timerUpdate (sysAt i).nbodies
            (sysAt i).ncontacts (sysAt i).iterations (sysAt i).residual) := by
  subst hm
  have heq : driverMonitorLines true numSteps sysAt rank
      = (List.range numSteps).map (fun i => monitorLine (sysAt i) rank) := by
    unfold driverMonitorLines
    simp only [if_pos]
    exact (List.map_eq_bind _ _).symm
  refine ⟨heq, fun i hi => ?_⟩
  rw [heq, List.getElem?_map, List.getElem?_range hi]
  rfl

/-- Witness for C7: three steps with the sample constantly zero produce
exactly the three expected lines. -/
theorem C7_witness :
    true = true ∧
    (driverMonitorLines true 3 (fun _ => SysSample.mk 0 0 0 0 0 0 0 0 0 0 0) 5
      = (List.range 3).map
          (fun i => monitorLine ((fun _ => SysSample.mk 0 0 0 0 0 0 0 0 0 0 0) i) 5)
    ∧ ∀ i : ℕ, i < 3 →
      (driverMonitorLines true 3 (fun _ => SysSample.mk 0 0 0 0 0 0 0 0 0 0 0) 5)[i]?
        = some (MonitorLine.mk 5 0 0 0 0 0 0 0 0 0 0 0)) :=
  ⟨rfl, C7_monitor_line_per_step true 3 _ 5 rfl⟩

/-! ### Command-line parsing (`GetProblemSpecs`, lines 401–477)

The option loop exits with `return false` on any argument `CSimpleOpt`
rejects and on `--help`/`-h`; after the loop, `return false` when
`num_threads == -1 || time_end <= 0` (both were initialized to `-1`). -/

/-- One command-line argument as the option loop classifies it: the driver's
recognized options (argument values of the `SO_REQ_CMB` ones already
converted) or an argument the parser rejects. -/
inductive Arg where
  | help
  | threads (v : ℤ)
  | timeEnd (v : ℚ)
  | monitorOpt
  | outdirOpt (d : ℕ)
  | verboseOpt
  | renderOpt
  | invalid
deriving DecidableEq

/-- The out-parameters of `GetProblemSpecs`. -/
structure ProblemSpecs where
  num_threads : ℤ
  time_end : ℚ
  monitor : Bool
  verbose : Bool
  render : Bool
  output_data : Bool
  outdir : ℕ
deriving DecidableEq

/-- The initializations at the top of `GetProblemSpecs`. -/
def initSpecs : ProblemSpecs := ProblemSpecs.mk (-1) (-1) false false false false 0

/-- One iteration of the option loop; `none` models the early `return
false` on an invalid argument or on `--help`/`-h`. -/
def processArg (s : ProblemSpecs) (a : Arg) : Option ProblemSpecs :=
  match a with
  | Arg.invalid => none
  | Arg.help => none
  | Arg.threads v => some { s with num_threads := v }
  | Arg.timeEnd v => some { s with time_end := v }
  | Arg.monitorOpt => some { s with monitor := true }
  | Arg.outdirOpt d => some { s with output_data := true, outdir := d }
  | Arg.verboseOpt => some { s with verbose := true }
  | Arg.renderOpt => some { s with render := true }

/-- The whole option loop. -/
def processArgs (s : ProblemSpecs) (args : List Arg) : Option ProblemSpecs :=
  match args with
  | [] => some s
  | a :: rest =>
    match processArg s a with
    | none => none
    | some s2 => processArgs s2 rest

/-- `GetProblemSpecs`: option loop, then the required-parameter check
`num_threads == -1 || time_end <= 0`; `none` models `return false`. -/
def getProblemSpecs (args : List Arg) : Option ProblemSpecs :=
  match processArgs initSpecs args with
  | none => none
  | some s => if s.num_threads = -1 ∨ s.time_end ≤ 0 then none else some s

/-- Does an argument set `num_threads` (option `-n`)? -/
def setsThreads : Arg → Bool
  | Arg.threads _ => true
  | _ => false

/-- Does an argument set `time_end` (option `-t`)? -/
def setsTimeEnd : Arg → Bool
  | Arg.timeEnd _ => true
  | _ => false

/-- The `-t` value an argument carries, if any. -/
def timeEndVal : Arg → Option ℚ
  | Arg.timeEnd v => some v
  | _ => none

/-- The rejection condition exactly as the claim words it: unrecognized
option, `--help`/`-h`, `-n` absent, or `-t` absent or its value not strictly
positive. -/
def claimRejects (args : List Arg) : Bool :=
  args.contains Arg.invalid || args.contains Arg.help ||
  args.all (fun a => !(setsThreads a)) ||
  args.all (fun a => !(setsTimeEnd a)) ||
  args.any (fun a => match timeEndVal a with
    | some v => decide (v ≤ 0)
    | none => false)

/-- Counterexample for C9: on `-n=-1 -t=1` the code returns false (because
`num_threads == -1` hits the sentinel check) although the claim's condition
does not hold — `-n` and `-t` are both present, `-t`'s value is positive and
nothing is unrecognized. -/
theorem C9_counterexample :
    ¬ (getProblemSpecs [Arg.threads (-1), Arg.timeEnd 1] = none ↔
      claimRejects [Arg.threads (-1), Arg.timeEnd 1] = true) := by
  decide

/-- `num_threads` after the loop: the last `-n` value, `-1` when `-n` never
occurred. -/
def finalThreads (args : List Arg) : ℤ :=
  args.foldl (fun v a => match a with | Arg.threads t => t | _ => v) (-1)

/-- `time_end` after the loop: the last `-t` value, `-1` when `-t` never
occurred. -/
def finalTimeEnd (args : List Arg) : ℚ :=
  args.foldl (fun v a => match a with | Arg.timeEnd t => t | _ => v) (-1)

theorem processArgs_none_iff (args : List Arg) : ∀ s : ProblemSpecs,
    processArgs s args = none ↔ Arg.invalid ∈ args ∨ Arg.help ∈ args := by
  induction args with
  | nil => intro s; simp [processArgs]
  | cons a rest ih =>
    intro s
    cases a <;> simp [processArgs, processArg, ih]

theorem processArgs_fields (args : List Arg) : ∀ s : ProblemSpecs,
    Arg.invalid ∉ args → Arg.help ∉ args →
    ∃ s2 : ProblemSpecs, processArgs s args = some s2 ∧
      s2.num_threads
        = args.foldl (fun v a => match a with | Arg.threads t => t | _ => v)
            s.num_threads ∧
      s2.time_end
        = args.foldl (fun v a => match a with | Arg.timeEnd t => t | _ => v)
            s.time_end := by
  induction args with
  | nil => intro s _ _; exact ⟨s, rfl, rfl, rfl⟩
  | cons a rest ih =>
    intro s hinv hhelp
    have hinv2 : Arg.invalid ∉ rest := fun hc => hinv (List.mem_cons_of_mem a hc)
    have hhelp2 : Arg.help ∉ rest := fun hc => hhelp (List.mem_cons_of_mem a hc)
    cases a with
    | invalid => exact absurd (List.mem_cons_self _ _) hinv
    | help => exact absurd (List.mem_cons_self _ _) hhelp
    | threads v =>
      obtain ⟨s2, h1, h2, h3⟩ := ih { s with num_threads := v } hinv2 hhelp2
      exact ⟨s2, h1, h2, h3⟩
    | timeEnd v =>
      obtain ⟨s2, h1, h2, h3⟩ := ih { s with time_end := v } hinv2 hhelp2
      exact ⟨s2, h1, h2, h3⟩
    | monitorOpt =>
      obtain ⟨s2, h1, h2, h3⟩ := ih { s with monitor := true } hinv2 hhelp2
      exact ⟨s2, h1, h2, h3⟩
    | outdirOpt d =>
      obtain ⟨s2, h1, h2, h3⟩ :=
        ih { s with output_data := true, outdir := d } hinv2 hhelp2
      exact ⟨s2, h1, h2, h3⟩
    | verboseOpt =>
      obtain ⟨s2, h1, h2, h3⟩ := ih { s with verbose := true } hinv2 hhelp2
      exact ⟨s2, h1, h2, h3⟩
    | renderOpt =>
      obtain ⟨s2, h1, h2, h3⟩ := ih { s with render := true } hinv2 hhelp2
      exact ⟨s2, h1, h2, h3⟩

/-- C9 amended: `GetProblemSpecs` returns false iff an unrecognized option is
given, `--help`/`-h` is given, `num_threads` after parsing equals the
sentinel `-1` (i.e. `-n` was absent or its last value was `-1`), or
`time_end` after parsing is not strictly positive (i.e. `-t` was absent or
its last value was `≤ 0`); on every other input it returns true. -/
theorem C9_amended_rejection (args : List Arg) :
    getProblemSpecs args = none ↔
      (Arg.invalid ∈ args ∨ Arg.help ∈ args ∨
        finalThreads args = -1 ∨ finalTimeEnd args ≤ 0) := by
  unfold getProblemSpecs
  by_cases herr : Arg.invalid ∈ args ∨ Arg.help ∈ args
  · rw [(processArgs_none_iff args initSpecs).mpr herr]
    simp only [true_iff]
    tauto
  · push_neg at herr
    obtain ⟨s2, h1, h2, h3⟩ := processArgs_fields args initSpecs herr.1 herr.2
    rw [h1]
    show (if s2.num_threads = -1 ∨ s2.time_end ≤ 0 then none else some s2) = none ↔ _
    have hth : finalThreads args = s2.num_threads := by rw [h2]; rfl
    have hte : finalTimeEnd args = s2.time_end := by rw [h3]; rfl
    by_cases hcond : s2.num_threads = -1 ∨ s2.time_end ≤ 0
    · rw [if_pos hcond]
      constructor
      · intro _
        rcases hcond with hc | hc
        · exact Or.inr (Or.inr (Or.inl (hth.trans hc)))
        · exact Or.inr (Or.inr (Or.inr (by rw [hte]; exact hc)))
      · intro _; rfl
    · rw [if_neg hcond]
      constructor
      · intro hc; exact absurd hc (by simp)
      · rintro (hc | hc | hc | hc)
        · exact absurd hc herr.1
        · exact absurd hc herr.2
        · exact (hcond (Or.inl (hth.symm.trans hc))).elim
        · exact (hcond (Or.inr (by rw [← hte]; exact hc))).elim

/-! ### `ChNodeFEAxyz::Relax` (`unit_FEA/ChNodeFEAxyz.h`, lines 66–75) -/

/-- `ChVector<>`: a 3-vector. -/
structure ChVector where
  x : ℚ
  y : ℚ
  z : ℚ
deriving DecidableEq

/-- `VNULL`: the zero vector. -/
def VNULL : ChVector := ChVector.mk 0 0 0

/-- The mutable state of a `ChNodeFEAxyz` node. -/
structure ChNodeFEAxyz where
  X0 : ChVector
  pos : ChVector
  pos_dt : ChVector
  pos_dtdt : ChVector
  Force : ChVector
  nodeMass : ℚ
deriving DecidableEq

/-- `SetNoSpeedNoAcceleration`: zero velocity and acceleration. -/
def setNoSpeedNoAcceleration (n : ChNodeFEAxyz) : ChNodeFEAxyz :=
  { n with pos_dt := VNULL, pos_dtdt := VNULL }

/-- `Relax`: `X0 = pos; SetNoSpeedNoAcceleration();`. -/
def relax (n : ChNodeFEAxyz) : ChNodeFEAxyz :=
  setNoSpeedNoAcceleration { n with X0 := n.pos }

/-- C10: after `Relax`, the reference position equals the current position,
velocity and acceleration are the zero vector, and the position itself is
unchanged. -/
theorem C10_relax_spec (n : ChNodeFEAxyz) :
    (relax n).X0 = (relax n).pos ∧ (relax n).pos_dt = VNULL ∧
    (relax n).pos_dtdt = VNULL ∧ (relax n).pos = n.pos :=
  ⟨rfl, rfl, rfl, rfl⟩

end Chrono
